import Mathlib

/-!
# Verification of the obsidian-semantic-search core (`src/lib.rs`)

Shallow embedding of the batch embedding pipeline (`get_embeddings`), the
similarity ranking path (`get_similarity`, `cosine_similarity`,
`get_embedding_rows`) and the provider response classification
(`post_embedding_request`) of the plugin, together with theorems settling
the frozen claims about them.

Modelling conventions:
* CSV parse/serialize mechanics and raw file I/O primitives are external
  collaborators (spec §1); tabular inputs enter the model as already-split
  records (`List (List String)`), and the embedding store is a
  `Option (List row)` value (`none` = the file is absent).
* Rust panics (slice out of range, `Option::unwrap` / `Result::unwrap` on a
  failed value, `ndarray` dot-length mismatch, out-of-bounds `data[0]`) are
  modelled as explicit `panic` outcomes / `none` values, always documented at
  the definition.
* `f32` arithmetic in the ranking path is modelled by `FP`, an IEEE-style
  carrier (`nan`, `±inf`, finite reals) with exact real arithmetic on the
  finite values; the generation path never inspects embedding values, so
  there they stay an abstract type `V`.
-/

/-! ## Generic helpers -/

/-- `optMap f l` models Rust's `iter().map(f).collect::<Result<_, _>>()` /
a sequence of `unwrap`s: `some` of the mapped list when `f` succeeds on every
element, `none` as soon as it fails on one. -/
def optMap {α β : Type} (f : α → Option β) : List α → Option (List β)
  | [] => some []
  | a :: l =>
    match f a, optMap f l with
    | some b, some bs => some (b :: bs)
    | _, _ => none

/-! ## Generation pipeline (`GenerateEmbeddingsCommand::get_embeddings`) -/

/-- Result of a `get_embeddings` run (`src/lib.rs` lines 50-108).
`apiError` is a provider error propagated by `?` from
`post_embedding_request`; `getEmbeddingsError` is
`SemanticSearchError::GetEmbeddingsError` (both "cannot find matching ..."
messages use this one variant in the source; the formatted message text is
not modelled); `panic` is a Rust panic (out-of-range slice of
`string_records`, or `unwrap` of a missing CSV field); `diverge` marks fuel
exhaustion of the loop model and is unreachable for the fuel
`get_embeddings` supplies. -/
inductive GenResult (E : Type) where
  | ok
  | apiError (e : E)
  | getEmbeddingsError
  | panic
  | diverge
deriving DecidableEq

/-- `batch_size = (num_records as f64 / num_batches as f64).ceil() as usize`
(line 60). For `numBatches ≥ 1` and realistic sizes (`< 2^53`) the `f64`
computation is exact and equals the ceiling division `(n + b - 1) / b`.
For `numBatches = 0` the Rust expression is `inf as usize` (saturating to
`usize::MAX`, `2^32 - 1` on wasm32) when `n > 0`, and `NaN as usize = 0`
when `n = 0`. -/
def batch_size (numRecords numBatches : ℕ) : ℕ :=
  if numBatches = 0 then (if numRecords = 0 then 0 else 2 ^ 32 - 1)
  else (numRecords + numBatches - 1) / numBatches

/-- `get_content_to_embed` (lines 123-131): per input record,
`record.get(2).unwrap().to_string()`; a record without a third field makes
the `unwrap` panic (`none`). The CSV reader itself (trim, strict column
count) is an external collaborator and not modelled. -/
def get_content_to_embed (records : List (List String)) : Option (List String) :=
  optMap (fun r => r[2]?) records

/-- `get_filename_body` (lines 133-141): per input record the pair
`(record.get(0).unwrap(), record.get(2).unwrap())` — note the second
component is column 2, the *body*, not column 1. -/
def get_filename_body (records : List (List String)) : Option (List (String × String)) :=
  optMap (fun r =>
    match r[0]?, r[2]? with
    | some a, some b => some (a, b)
    | _, _ => none) records

/-- Modelled from the spec: `file_processor.write_to_path` (its source is not
under `src/`) appends the freshly serialized batch to the embedding store,
creating the file when absent — spec §4.1: records "are appended to the
output store immediately (not deferred)". CSV serialization of the rows is
out of scope, so the store holds the rows themselves. -/
def writeStore {R : Type} (store : Option (List R)) (rows : List R) : Option (List R) :=
  some (store.getD [] ++ rows)

/-- The per-batch record assembly loop (lines 78-98): iterate over the
request input `arr` with batch-local index `i` (modelled by walking `arr`
and `data` in tandem), look up `filename_body[num_processed + i]` and
`response.data[i]`, and collect `(filename, header-field, embedding)` rows
for the CSV writer. `none` models an early `return Err(GetEmbeddingsError ...)`
(missing filename/header pair, or missing embedding). -/
def buildRows {V : Type} (fb : List (String × String)) : ℕ → List String → List V →
    Option (List (String × String × V))
  | _, [], _ => some []
  | base, _ :: arr, data =>
    match fb[base]? with
    | none => none
    | some fh =>
      match data[0]? with
      | none => none
      | some emb =>
        match buildRows fb (base + 1) arr data.tail with
        | none => none
        | some rows => some ((fh.1, fh.2, emb) :: rows)

/-- The `while num_processed < num_records` loop of `get_embeddings`
(lines 62-104). `oracle batch records` models the provider round-trip
`post_embedding_request` for the given batch number (each network call is an
independent event, hence the call index); its `Except.error` is propagated
by `?`. The slice `&string_records[num_processed..num_processed + num_to_process]`
panics when the end index exceeds the record count. On success the batch's
rows are flushed to the store before the next batch starts. `fuel` bounds
the recursion; `get_embeddings` supplies more fuel than the loop can
consume. -/
def batchLoop {V E : Type} (oracle : ℕ → List String → Except E (List V))
    (bodies : List String) (fb : List (String × String)) (numBatches bsize : ℕ) :
    ℕ → ℕ → ℕ → Option (List (String × String × V)) →
    Option (List (String × String × V)) × GenResult E
  | 0, _, _, store => (store, .diverge)
  | fuel + 1, numProcessed, batch, store =>
    if numProcessed < bodies.length then
      let numToProcess := if batch = numBatches then bodies.length - numProcessed else bsize
      if numProcessed + numToProcess ≤ bodies.length then
        let records := (bodies.drop numProcessed).take numToProcess
        match oracle batch records with
        | .error e => (store, .apiError e)
        | .ok data =>
          match buildRows fb numProcessed records data with
          | none => (store, .getEmbeddingsError)
          | some rows =>
            batchLoop oracle bodies fb numBatches bsize fuel
              (numProcessed + numToProcess) (batch + 1) (writeStore store rows)
      else (store, .panic)
    else (store, .ok)

/-- `get_embeddings` (lines 50-108): delete the embedding store
(`delete_file_at_path`, modelled from the spec as making the store absent),
read and split the input table, then run the batch loop starting from
`num_processed = 0`, `batch = 1` on the freshly deleted store. `store0` is
the pre-existing store; the result never depends on it. The embedding
values returned by the provider are never inspected, so they are an
abstract type `V`. -/
def get_embeddings {V E : Type} (oracle : ℕ → List String → Except E (List V))
    (records : List (List String)) (numBatches : ℕ)
    (store0 : Option (List (String × String × V))) :
    Option (List (String × String × V)) × GenResult E :=
  let deleted : Option (List (String × String × V)) := none
  match get_content_to_embed records, get_filename_body records with
  | some bodies, some fb =>
    batchLoop oracle bodies fb numBatches (batch_size bodies.length numBatches)
      (bodies.length + 1) 0 1 deleted
  | _, _ => (deleted, .panic)

/-! Helper views of an input document `(name, header, body)`. -/

/-- The body (input column 2) of a document. -/
def bodyOf (d : String × String × String) : String := d.2.2

/-- What `get_filename_body` extracts for a document: columns 0 and 2. -/
def fbOf (d : String × String × String) : String × String := (d.1, d.2.2)

/-- A document rendered as the 3-column CSV record `[name, header, body]`. -/
def recOf (d : String × String × String) : List String := [d.1, d.2.1, d.2.2]

/-- The store row `get_embeddings` produces for a document when the provider
maps each input string to `embF` of it: `(name, body, embedding)`. -/
def expRow {V : Type} (embF : String → V) (d : String × String × String) :
    String × String × V := (d.1, d.2.2, embF d.2.2)

/-- The input slice submitted for batch `j` (1-based): starting after the
`(j-1)` earlier batches of `batch_size` records each, of length
`batch_size`, except that the batch with index `numBatches` takes all
remaining records. -/
def batchInput (docs : List (String × String × String)) (numBatches j : ℕ) : List String :=
  let s := batch_size docs.length numBatches
  ((docs.map bodyOf).drop ((j - 1) * s)).take
    (if j = numBatches then docs.length - (j - 1) * s else s)

/-! ## Similarity ranking path (`QueryCommand`, `cosine_similarity`) -/

/-- `f32`-style carrier for the ranking arithmetic: `nan`, the two
infinities, and finite values idealized as exact reals (`f32` rounding is
not modelled; every claim about this path concerns the shape of the
computation, not rounding). Negative zero is conflated with zero. -/
inductive FP where
  | nan
  | inf
  | ninf
  | fin (x : ℝ)

/-- IEEE-style addition on `FP` (used by the dot products): `nan`
propagates, opposite infinities give `nan`. -/
noncomputable def FP.add : FP → FP → FP
  | nan, _ => nan
  | _, nan => nan
  | inf, ninf => nan
  | ninf, inf => nan
  | inf, _ => inf
  | _, inf => inf
  | ninf, _ => ninf
  | _, ninf => ninf
  | fin x, fin y => fin (x + y)

/-- IEEE-style multiplication on `FP`: `nan` propagates, infinity times
zero is `nan`. -/
noncomputable def FP.mul : FP → FP → FP
  | nan, _ => nan
  | _, nan => nan
  | inf, inf => inf
  | inf, ninf => ninf
  | ninf, inf => ninf
  | ninf, ninf => inf
  | inf, fin y => if y = 0 then nan else if 0 < y then inf else ninf
  | fin x, inf => if x = 0 then nan else if 0 < x then inf else ninf
  | ninf, fin y => if y = 0 then nan else if 0 < y then ninf else inf
  | fin x, ninf => if x = 0 then nan else if 0 < x then ninf else inf
  | fin x, fin y => fin (x * y)

/-- IEEE-style division on `FP`: `nan` propagates, `0 / 0 = nan`,
nonzero over zero is a signed infinity (signed zero is not modelled; the
only zero divisor reachable in this code is the `sqrt` of a sum of
squares, which IEEE makes `+0`). -/
noncomputable def FP.div : FP → FP → FP
  | nan, _ => nan
  | _, nan => nan
  | inf, inf => nan
  | inf, ninf => nan
  | ninf, inf => nan
  | ninf, ninf => nan
  | inf, fin y => if 0 ≤ y then inf else ninf
  | ninf, fin y => if 0 ≤ y then ninf else inf
  | fin _, inf => fin 0
  | fin _, ninf => fin 0
  | fin x, fin y =>
    if y = 0 then (if x = 0 then nan else if 0 < x then inf else ninf)
    else fin (x / y)

/-- IEEE-style square root on `FP`: `nan` for negative inputs. -/
noncomputable def FP.sqrt : FP → FP
  | nan => nan
  | inf => inf
  | ninf => nan
  | fin x => if x < 0 then nan else fin (Real.sqrt x)

/-- `f32::partial_cmp`: `none` whenever either side is `nan` — this is the
value whose `unwrap` the sort comparator performs. -/
noncomputable def FP.pcmp : FP → FP → Option Ordering
  | nan, _ => none
  | _, nan => none
  | inf, inf => some .eq
  | inf, _ => some .gt
  | _, inf => some .lt
  | ninf, ninf => some .eq
  | ninf, _ => some .lt
  | _, ninf => some .gt
  | fin x, fin y => some (if x < y then .lt else if x = y then .eq else .gt)

/-- `Array1::dot` of `ndarray` (used three times in `cosine_similarity`):
sum of pairwise products; `none` models the panic `ndarray` raises when the
two arrays have different lengths. -/
noncomputable def dotFP : List FP → List FP → Option FP
  | [], [] => some (.fin 0)
  | x :: xs, y :: ys =>
    match dotFP xs ys with
    | none => none
    | some d => some (FP.add (FP.mul x y) d)
  | _, _ => none

/-- `cosine_similarity` (lines 177-181):
`a1.dot(&a2) / a1.dot(&a1).sqrt() * a2.dot(&a2).sqrt()` — note the division
binds only to the left (query) norm; the right (candidate) norm multiplies
the result. `none` models the `ndarray` length-mismatch panic. -/
noncomputable def cosine_similarity (left right : List FP) : Option FP :=
  match dotFP left right, dotFP left left, dotFP right right with
  | some d, some dll, some drr => some (FP.mul (FP.div d (FP.sqrt dll)) (FP.sqrt drr))
  | _, _, _ => none

/-- Real-valued rendering of the same dot product, for stating algebraic
facts about the formula (tied to `dotFP` by `dotFP_map_fin`). -/
def dotR : List ℝ → List ℝ → ℝ
  | x :: xs, y :: ys => x * y + dotR xs ys
  | _, _ => 0

/-- Real-valued rendering of the `cosine_similarity` expression
`dot(q,v) / ‖q‖ * ‖v‖` (`cos_formula` proves it is what
`cosine_similarity` computes on finite inputs with a nonzero query). -/
noncomputable def cosine_similarityR (left right : List ℝ) : ℝ :=
  dotR left right / Real.sqrt (dotR left left) * Real.sqrt (dotR right right)

/-- A row of the embedding store as loaded for ranking:
`(name, header-column, vector)`. -/
abbrev SRow : Type := String × String × List FP

/-- The sort comparator closure of `get_similarity` (line 157):
`cosine_similarity(query, row1.2).partial_cmp(&cosine_similarity(query, row2.2))`.
`none` models a panic inside the comparator: either a `cosine_similarity`
dimension-mismatch panic or `partial_cmp` returning `None` (a `nan` score)
so that `.unwrap()` panics. -/
noncomputable def cmpRows (q : List FP) (r1 r2 : SRow) : Option Ordering :=
  match cosine_similarity q r1.2.2, cosine_similarity q r2.2.2 with
  | some s1, some s2 => FP.pcmp s1 s2
  | _, _ => none

/-- Ordered insert step of the comparison sort modelling
`sort_unstable_by` (ascending per the comparator); `none` propagates a
comparator panic. Ties keep no specified order, matching the unstable
sort. -/
def insertCmp {α : Type} (cmp : α → α → Option Ordering) (a : α) : List α → Option (List α)
  | [] => some [a]
  | b :: bs =>
    match cmp a b with
    | none => none
    | some Ordering.lt => some (a :: b :: bs)
    | some _ =>
      match insertCmp cmp a bs with
      | none => none
      | some l => some (b :: l)

/-- `Vec::sort_unstable_by` modelled as an insertion sort over the
comparator: the result agrees with the Rust pattern-defeating quicksort
whenever the comparator is a consistent total order, and `none` (panic)
whenever the list has two elements to compare and the comparator panics on
every pair it tries. -/
def sortByCmp {α : Type} (cmp : α → α → Option Ordering) : List α → Option (List α)
  | [] => some []
  | a :: as =>
    match sortByCmp cmp as with
    | none => none
    | some l => insertCmp cmp a l

/-- Outcome of `QueryCommand::get_similarity`: a Rust panic, or the ranked
`(name, header-column)` suggestions. Provider and store errors propagate
upstream of the part modelled here. -/
inductive QueryResult where
  | panic
  | ok (suggestions : List (String × String))

/-- `get_similarity` (lines 152-161), given the loaded store rows and the
`data` array of the query's embedding response: take `response.data[0]`
(out-of-bounds panic when `data` is empty — the indexing is unconditional),
sort the rows ascending by `cosine_similarity` against the query via the
unwrapping comparator, reverse to descending, and project to
`(name, header-column)`. -/
noncomputable def get_similarity (rows : List SRow) (respData : List (List FP)) : QueryResult :=
  match respData[0]? with
  | none => .panic
  | some q =>
    match sortByCmp (cmpRows q) rows with
    | none => .panic
    | some sorted => .ok (sorted.reverse.map fun r => (r.1, r.2.1))

/-! ## Store loading (`QueryCommand::get_embedding_rows`) -/

/-- Split a character list at every occurrence of `sep` (the accumulator
holds the current field reversed). Trailing and empty fields are kept,
matching Rust's `str::split`. -/
def splitCharAux (sep : Char) : List Char → List Char → List (List Char)
  | [], acc => [acc.reverse]
  | c :: cs, acc =>
    if c = sep then acc.reverse :: splitCharAux sep cs []
    else splitCharAux sep cs (c :: acc)

/-- `str::split(",")` as used on the stored vector field. -/
def splitComma (s : String) : List String :=
  (splitCharAux ',' s.data []).map fun l => String.mk l

/-- Decimal digit value of a character, if any. -/
def digit? (c : Char) : Option ℕ :=
  if '0' ≤ c ∧ c ≤ '9' then some (c.toNat - '0'.toNat) else none

/-- Value of a digit string (most significant first), `none` on a
non-digit. -/
def decVal : ℕ → List Char → Option ℕ
  | acc, [] => some acc
  | acc, c :: cs =>
    match digit? c with
    | none => none
    | some d => decVal (acc * 10 + d) cs

/-- Unsigned part of `f32::from_str`: `digits`, `digits.digits`,
`digits.` or `.digits`; anything else fails. Exponent, `inf` and `nan`
forms of the Rust grammar are not modelled (no claim exercises them), and
the `f32` rounding of the decimal value is idealized as the exact
rational. -/
def parseUnsigned (cs : List Char) : Option ℚ :=
  if cs = [] then none
  else
    match splitCharAux '.' cs [] with
    | [ip] => (decVal 0 ip).map fun n => (n : ℚ)
    | [ip, fp'] =>
      if ip = [] ∧ fp' = [] then none
      else
        match decVal 0 ip, decVal 0 fp' with
        | some n, some m => some ((n : ℚ) + (m : ℚ) / (10 : ℚ) ^ fp'.length)
        | _, _ => none
    | _ => none

/-- `s.parse::<f32>()` for the plain decimal subset: optional sign, then
`parseUnsigned`. -/
def parseQ (s : String) : Option ℚ :=
  match s.data with
  | '-' :: rest => (parseUnsigned rest).map fun q => -q
  | '+' :: rest => parseUnsigned rest
  | cs => parseUnsigned cs

/-- Outcome of `get_embedding_rows`: the loaded rows, or a Rust panic
(`unwrap` of a missing column or of a failed `parse::<f32>`). The CSV
read errors surfaced by `?` happen upstream of what is modelled here. -/
inductive LoadResult where
  | panic
  | rows (rs : List (String × String × List ℚ))
deriving DecidableEq

/-- Loading of one store row (lines 168-172):
`(record.get(0).unwrap(), record.get(1).unwrap(),
record.get(2).unwrap().split(",").map(|s| s.parse::<f32>().unwrap()))` —
every failure is an `unwrap` panic (`none`), never an error value. -/
def loadRow (r : List String) : Option (String × String × List ℚ)  :=
  match r[0]?, r[1]?, r[2]? with
  | some name, some hdr, some fld =>
    match optMap parseQ (splitComma fld) with
    | some vec => some (name, hdr, vec)
    | none => none
  | _, _, _ => none

/-- `get_embedding_rows` (lines 163-174) on the already-CSV-parsed store
records: load every row, panicking (not erroring) on the first row whose
load panics. -/
def get_embedding_rows (records : List (List String)) : LoadResult :=
  match optMap loadRow records with
  | none => .panic
  | some rows => .rows rows

/-! ## Provider response classification (`Client::post_embedding_request`) -/

/-- The error kinds `post_embedding_request` can itself produce
(`SemanticSearchError` variants): the provider's typed API error carrying
the deserialized error payload, or the distinct deserialization failure
kind (`SemanticSearchError::JSONDeserialize`). Transport errors arise
upstream and are out of scope here. -/
inductive SemErr (ApiErr : Type) where
  | apiError (e : ApiErr)
  | jsonDeserialize
deriving DecidableEq

/-- `reqwest::StatusCode::is_success`: `2xx`. -/
def status_is_success (status : ℕ) : Bool :=
  decide (200 ≤ status) && decide (status < 300)

/-- `post_embedding_request` (lines 257-283), after the transport produced
`status` and `bytes`: on a non-success status, deserialize the structured
error payload (`WrappedError`) — failure of that deserialization is
`jsonDeserialize`, success is surfaced as `apiError` with the provider's
own error detail; on a success status, deserialize the embedding response,
with failure again `jsonDeserialize`. The two serde deserializers enter as
parameters (`serde_json` is an external collaborator); `Body`, `ApiErr`,
`Resp` are the wire body, the provider error payload and the embedding
response types. -/
def post_embedding_request {Body ApiErr Resp : Type}
    (deserializeWrappedError : Body → Option ApiErr)
    (deserializeResponse : Body → Option Resp)
    (status : ℕ) (body : Body) : Except (SemErr ApiErr) Resp :=
  if status_is_success status = false then
    match deserializeWrappedError body with
    | none => .error .jsonDeserialize
    | some e => .error (.apiError e)
  else
    match deserializeResponse body with
    | none => .error .jsonDeserialize
    | some r => .ok r

/-! Concrete data used by counterexamples and witnesses. -/

/-- Five input documents whose headers differ from their bodies. -/
def docs5 : List (String × String × String) :=
  [("n0", "h0", "b0"), ("n1", "h1", "b1"), ("n2", "h2", "b2"),
   ("n3", "h3", "b3"), ("n4", "h4", "b4")]

/-- A provider oracle that always succeeds, returning the embedding `0`
for every input string. -/
def oracleZero : ℕ → List String → Except Unit (List ℕ) :=
  fun _ inp => .ok (inp.map fun _ => 0)

/-- A provider oracle whose round-trip fails on its second call (batch 2)
with error `7`, and otherwise echoes one embedding (the input's length)
per input in request order. -/
def oracleFail2 : ℕ → List String → Except ℕ (List ℕ) :=
  fun j inp => if j = 2 then .error 7 else .ok (inp.map String.length)

/-- Toy error-payload deserializer: succeeds exactly on the body
`"429_body"`. -/
def dErrToy : String → Option String :=
  fun b => if b = "429_body" then some "rate limited" else none

/-- Toy response deserializer that always fails. -/
def dRespToy : String → Option ℕ := fun _ => none

/-- Store rows with 1-dimensional vectors `1`, `2`, `3`; against query
`[1]` their (flawed-formula) scores are `1`, `4`, `9`. -/
def rowA : SRow := ("a", "ha", [FP.fin 1])

/-- `rowA` with its vector scaled by `4` (score `16`). -/
def rowA4 : SRow := ("a", "ha", [FP.fin 4])

/-- `rowA` with its vector scaled by `5` (score `25`). -/
def rowA5 : SRow := ("a", "ha", [FP.fin 5])

/-- See `rowA`. -/
def rowB : SRow := ("b", "hb", [FP.fin 2])

/-- See `rowA`. -/
def rowC : SRow := ("c", "hc", [FP.fin 3])

/-! ## Lemmas about the generation pipeline -/

theorem optMap_map {α β γ : Type} (f : β → Option γ) (h : α → β) (l : List α) :
    optMap f (l.map h) = optMap (fun a => f (h a)) l := by
  induction l with
  | nil => rfl
  | cons a t ih => simp [optMap, ih]

theorem optMap_some {α β : Type} (f : α → Option β) (g : α → β) (l : List α)
    (h : ∀ a ∈ l, f a = some (g a)) : optMap f l = some (l.map g) := by
  induction l with
  | nil => rfl
  | cons a t ih =>
    simp only [optMap, h a (List.mem_cons_self a t),
      ih (fun x hx => h x (List.mem_cons_of_mem a hx)), List.map_cons]

theorem optMap_none {α β : Type} (f : α → Option β) {a : α} {l : List α}
    (ha : a ∈ l) (hf : f a = none) : optMap f l = none := by
  induction l with
  | nil => cases ha
  | cons b t ih =>
    rcases List.mem_cons.mp ha with h | h
    · subst h; simp [optMap, hf]
    · cases hfb : f b <;> simp [optMap, hfb, ih h]

theorem content_map_recOf (docs : List (String × String × String)) :
    get_content_to_embed (docs.map recOf) = some (docs.map bodyOf) := by
  rw [get_content_to_embed, optMap_map]
  exact optMap_some _ _ _ (fun d _ => rfl)

theorem fb_map_recOf (docs : List (String × String × String)) :
    get_filename_body (docs.map recOf) = some (docs.map fbOf) := by
  rw [get_filename_body, optMap_map]
  exact optMap_some _ _ _ (fun d _ => rfl)

/-- When the response data is exactly `embF` mapped over the submitted
slice, the record-assembly loop of batch starting at `base` succeeds and
produces the rows `expRow embF` of the documents at global positions
`base, base+1, ...` — the global input positions, not the batch-local
ones. -/
theorem buildRows_seg {V : Type} (embF : String → V)
    (docs : List (String × String × String)) :
    ∀ (n base : ℕ), base + n ≤ docs.length →
      buildRows (docs.map fbOf) base (((docs.map bodyOf).drop base).take n)
          ((((docs.map bodyOf).drop base).take n).map embF)
        = some (((docs.map (expRow embF)).drop base).take n) := by
  intro n
  induction n with
  | zero => intro base _; simp [buildRows]
  | succ m ih =>
    intro base hb
    have hlt : base < docs.length := by omega
    have hlb : base < (docs.map bodyOf).length := by simpa using hlt
    have hle : base < (docs.map (expRow embF)).length := by simpa using hlt
    rw [List.drop_eq_getElem_cons hlb, List.drop_eq_getElem_cons hle]
    simp only [List.take_succ_cons, List.map_cons]
    rw [buildRows]
    have hfb : (docs.map fbOf)[base]? = some (fbOf docs[base]) := by
      rw [List.getElem?_map, List.getElem?_eq_getElem hlt]; rfl
    rw [hfb]
    simp only [List.getElem?_cons_zero, List.tail_cons]
    rw [ih (base + 1) (by omega)]
    simp [fbOf, expRow, bodyOf, List.getElem_map]

/-- Loop invariant for fully successful runs: when the provider answers
every call with one embedding (`embF` of the input) per input in request
order, a run of the batch loop that ends with `.ok` has appended exactly
the rows of the still-unprocessed documents (in global input order) to the
store it started from. -/
theorem batchLoop_ok {V E : Type} (oracle : ℕ → List String → Except E (List V))
    (embF : String → V) (docs : List (String × String × String)) (B bs : ℕ)
    (horacle : ∀ j inp, oracle j inp = .ok (inp.map embF)) :
    ∀ (fuel p batch : ℕ) (store store' : Option (List (String × String × V))),
      batchLoop oracle (docs.map bodyOf) (docs.map fbOf) B bs fuel p batch store
          = (store', .ok) →
      store' = if p < docs.length
               then some (store.getD [] ++ ((docs.map (expRow embF)).drop p))
               else store := by
  intro fuel
  induction fuel with
  | zero =>
    intro p batch store store' h
    simp [batchLoop] at h
  | succ f ih =>
    intro p batch store store' h
    simp only [batchLoop] at h
    by_cases hp : p < (docs.map bodyOf).length
    · rw [if_pos hp] at h
      have hp' : p < docs.length := by simpa using hp
      rw [if_pos hp']
      generalize hn : (if batch = B then (docs.map bodyOf).length - p else bs) = n at h
      by_cases hr : p + n ≤ (docs.map bodyOf).length
      · rw [if_pos hr] at h
        rw [horacle batch _] at h
        simp only [] at h
        have hr' : p + n ≤ docs.length := by simpa using hr
        rw [buildRows_seg embF docs n p hr'] at h
        simp only [] at h
        have hrec := ih (p + n) (batch + 1) (writeStore store _) store' h
        by_cases hpn : p + n < docs.length
        · rw [if_pos hpn] at hrec
          rw [hrec]
          simp only [writeStore, Option.getD_some]
          rw [List.append_assoc]
          congr 1
          have hdd : ((docs.map (expRow embF)).drop p).drop n
              = (docs.map (expRow embF)).drop (p + n) := by
            rw [List.drop_drop]
          rw [← hdd, List.take_append_drop]
        · rw [if_neg hpn] at hrec
          rw [hrec]
          simp only [writeStore, Option.getD_some]
          congr 2
          have hlen : ((docs.map (expRow embF)).drop p).length ≤ n := by
            simp only [List.length_drop, List.length_map]
            omega
          rw [List.take_of_length_le hlen]
      · rw [if_neg hr] at h
        simp at h
    · rw [if_neg hp] at h
      have hp' : ¬ p < docs.length := by simpa using hp
      rw [if_neg hp']
      simpa using (congrArg Prod.fst h).symm

/-- Run lemma for a provider failure: starting at the state reached after
`j - 1` fully-flushed batches, if the provider succeeds on batches up to
`k - 1` and fails on batch `k`, the loop stops at batch `k` with the error,
leaving exactly the first `(k - 1) * batch_size` rows in the store. -/
theorem batchLoop_reach {V E : Type} (oracle : ℕ → List String → Except E (List V))
    (embF : String → V) (docs : List (String × String × String)) (B k : ℕ) (e : E)
    (hkB : k ≤ B)
    (hreach : (k - 1) * batch_size docs.length B < docs.length)
    (hrange : k = B ∨ k * batch_size docs.length B ≤ docs.length)
    (hok : ∀ j, 1 ≤ j → j < k →
      oracle j (batchInput docs B j) = .ok ((batchInput docs B j).map embF))
    (herr : oracle k (batchInput docs B k) = .error e) :
    ∀ (n j : ℕ), j + n = k → 1 ≤ j → ∀ fuel, n < fuel →
      batchLoop oracle (docs.map bodyOf) (docs.map fbOf) B (batch_size docs.length B) fuel
          ((j - 1) * batch_size docs.length B) j
          (if j = 1 then none
           else some ((docs.map (expRow embF)).take ((j - 1) * batch_size docs.length B)))
        = ((if k = 1 then none
            else some ((docs.map (expRow embF)).take ((k - 1) * batch_size docs.length B))),
           .apiError e) := by
  intro n
  induction n with
  | zero =>
    intro j hjk hj1 fuel hfuel
    obtain ⟨f, rfl⟩ : ∃ f, fuel = f + 1 := ⟨fuel - 1, by omega⟩
    have hjk' : j = k := by omega
    subst hjk'
    simp only [batchLoop]
    rw [if_pos (show (j - 1) * batch_size docs.length B < (docs.map bodyOf).length by
      simpa using hreach)]
    have hrange' : (j - 1) * batch_size docs.length B +
        (if j = B then (docs.map bodyOf).length - (j - 1) * batch_size docs.length B
         else batch_size docs.length B) ≤ (docs.map bodyOf).length := by
      by_cases hjB : j = B
      · rw [if_pos hjB]
        simp only [List.length_map]
        omega
      · rw [if_neg hjB]
        rcases hrange with hB | hle
        · exact absurd hB hjB
        · simp only [List.length_map]
          have hmul : (j - 1) * batch_size docs.length B + batch_size docs.length B
              = j * batch_size docs.length B := by
            cases j with
            | zero => omega
            | succ jj => simp [Nat.succ_sub_one, Nat.succ_mul]
          omega
    rw [if_pos hrange']
    have hslice : ((docs.map bodyOf).drop ((j - 1) * batch_size docs.length B)).take
        (if j = B then (docs.map bodyOf).length - (j - 1) * batch_size docs.length B
         else batch_size docs.length B) = batchInput docs B j := by
      simp [batchInput, List.length_map]
    rw [hslice, herr]
  | succ m ih =>
    intro j hjk hj1 fuel hfuel
    obtain ⟨f, rfl⟩ : ∃ f, fuel = f + 1 := ⟨fuel - 1, by omega⟩
    have hjlt : j < k := by omega
    have hjB : ¬ j = B := by omega
    have hN : 1 ≤ docs.length := by omega
    have hs1 : 1 ≤ batch_size docs.length B := by
      rw [batch_size, if_neg (show ¬ B = 0 by omega)]
      rw [Nat.one_le_div_iff (by omega)]
      omega
    have hmul : (j - 1) * batch_size docs.length B + batch_size docs.length B
        = j * batch_size docs.length B := by
      cases j with
      | zero => omega
      | succ jj => simp [Nat.succ_sub_one, Nat.succ_mul]
    have hjs : j * batch_size docs.length B ≤ (k - 1) * batch_size docs.length B :=
      Nat.mul_le_mul_right _ (by omega)
    simp only [batchLoop]
    rw [if_pos (show (j - 1) * batch_size docs.length B < (docs.map bodyOf).length by
      simp only [List.length_map]
      have := Nat.mul_le_mul_right (batch_size docs.length B) (show j - 1 ≤ k - 1 by omega)
      omega)]
    rw [if_neg hjB]
    rw [if_pos (show (j - 1) * batch_size docs.length B + batch_size docs.length B
        ≤ (docs.map bodyOf).length by simp only [List.length_map]; omega)]
    have hslice : ((docs.map bodyOf).drop ((j - 1) * batch_size docs.length B)).take
        (batch_size docs.length B) = batchInput docs B j := by
      simp only [batchInput]
      rw [if_neg hjB]
    have hok' : oracle j (((docs.map bodyOf).drop ((j - 1) * batch_size docs.length B)).take
          (batch_size docs.length B))
        = .ok ((((docs.map bodyOf).drop ((j - 1) * batch_size docs.length B)).take
          (batch_size docs.length B)).map embF) := by
      rw [hslice]; exact hok j hj1 hjlt
    rw [hok']
    simp only []
    rw [buildRows_seg embF docs (batch_size docs.length B)
      ((j - 1) * batch_size docs.length B) (by omega)]
    simp only []
    have hstore : writeStore
        (if j = 1 then none
         else some ((docs.map (expRow embF)).take ((j - 1) * batch_size docs.length B)))
        (((docs.map (expRow embF)).drop ((j - 1) * batch_size docs.length B)).take
          (batch_size docs.length B))
        = some ((docs.map (expRow embF)).take (j * batch_size docs.length B)) := by
      by_cases hj : j = 1
      · subst hj
        simp [writeStore]
      · rw [if_neg hj]
        simp only [writeStore, Option.getD_some]
        rw [← hmul, List.take_add]
    rw [hstore, hmul]
    have hIH := ih (j + 1) (by omega) (by omega) f (by omega)
    rw [if_neg (show ¬ (j + 1 = 1) by omega)] at hIH
    simpa using hIH

/-! ## Lemmas about the ranking path -/

theorem FP.mul_nan (z : FP) : FP.mul .nan z = .nan := by cases z <;> rfl

theorem FP.pcmp_nan (z : FP) : FP.pcmp .nan z = none := by cases z <;> rfl

theorem pcmp_fin_lt {x y : ℝ} (h : x < y) : FP.pcmp (.fin x) (.fin y) = some .lt := by
  rw [FP.pcmp, if_pos h]

theorem pcmp_fin_gt {x y : ℝ} (h : y < x) : FP.pcmp (.fin x) (.fin y) = some .gt := by
  rw [FP.pcmp, if_neg (by exact not_lt.2 (le_of_lt h)), if_neg (by exact ne_of_gt h)]

theorem dotR_self_nonneg (l : List ℝ) : 0 ≤ dotR l l := by
  induction l with
  | nil => simp [dotR]
  | cons x xs ih =>
    rw [dotR]
    have := mul_self_nonneg x
    linarith

theorem dotFP_map_fin (q v : List ℝ) (hlen : q.length = v.length) :
    dotFP (q.map FP.fin) (v.map FP.fin) = some (.fin (dotR q v)) := by
  induction q generalizing v with
  | nil =>
    cases v with
    | nil => simp [dotFP, dotR]
    | cons b t => simp at hlen
  | cons a q ih =>
    cases v with
    | nil => simp at hlen
    | cons b t =>
      simp only [List.map_cons]
      rw [dotFP, ih t (by simpa using hlen)]
      simp only [FP.mul, FP.add, dotR]

/-- On finite vectors with a nonzero query, `cosine_similarity` computes
exactly the real expression `dot(q,v) / ‖q‖ * ‖v‖`. -/
theorem cos_formula (q v : List ℝ) (hlen : q.length = v.length) (hne : dotR q q ≠ 0) :
    cosine_similarity (q.map FP.fin) (v.map FP.fin)
      = some (.fin (dotR q v / Real.sqrt (dotR q q) * Real.sqrt (dotR v v))) := by
  rw [cosine_similarity, dotFP_map_fin q v hlen, dotFP_map_fin q q rfl, dotFP_map_fin v v rfl]
  simp only []
  have h0q : 0 < dotR q q := lt_of_le_of_ne (dotR_self_nonneg q) (Ne.symm hne)
  rw [FP.sqrt, if_neg (not_lt.2 (dotR_self_nonneg q)),
      FP.sqrt, if_neg (not_lt.2 (dotR_self_nonneg v))]
  rw [FP.div, if_neg (Real.sqrt_ne_zero'.mpr h0q)]
  rw [FP.mul]

/-- Score of a 1-dimensional candidate `[b]` (with `b ≥ 0`) against the
query `[1]`: the flawed formula gives `b / 1 * b = b²`. -/
theorem cos_one (b : ℝ) (hb : 0 ≤ b) :
    cosine_similarity [FP.fin 1] [FP.fin b] = some (.fin (b * b)) := by
  have h1 : cosine_similarity [FP.fin 1] [FP.fin b]
      = some (FP.mul (FP.div (.fin (1 * b + 0)) (FP.sqrt (.fin (1 * 1 + 0))))
          (FP.sqrt (.fin (b * b + 0)))) := rfl
  rw [h1]
  have h2 : FP.sqrt (.fin (1 * 1 + 0)) = .fin 1 := by
    rw [FP.sqrt, if_neg (by norm_num)]; norm_num
  have h3 : FP.sqrt (.fin (b * b + 0)) = .fin b := by
    rw [FP.sqrt, if_neg (not_lt.2 (by positivity))]
    rw [show b * b + 0 = b * b by ring, Real.sqrt_mul_self hb]
  rw [h2, h3]
  have h4 : FP.div (.fin (1 * b + 0)) (.fin 1) = .fin b := by
    rw [FP.div, if_neg (by norm_num)]; norm_num
  rw [h4, FP.mul]

theorem cos_one_1 : cosine_similarity [FP.fin 1] [FP.fin 1] = some (.fin 1) := by
  have := cos_one 1 (by norm_num); norm_num at this; exact this

theorem cos_one_2 : cosine_similarity [FP.fin 1] [FP.fin 2] = some (.fin 4) := by
  have := cos_one 2 (by norm_num); norm_num at this; exact this

theorem cos_one_3 : cosine_similarity [FP.fin 1] [FP.fin 3] = some (.fin 9) := by
  have := cos_one 3 (by norm_num); norm_num at this; exact this

theorem cos_one_4 : cosine_similarity [FP.fin 1] [FP.fin 4] = some (.fin 16) := by
  have := cos_one 4 (by norm_num); norm_num at this; exact this

theorem cos_one_5 : cosine_similarity [FP.fin 1] [FP.fin 5] = some (.fin 25) := by
  have := cos_one 5 (by norm_num); norm_num at this; exact this

theorem sqrt_four : Real.sqrt 4 = 2 := by
  rw [show (4 : ℝ) = 2 ^ 2 by norm_num, Real.sqrt_sq (by norm_num : (0:ℝ) ≤ 2)]

theorem dotFP_zero_left (q v : List FP) (hq : ∀ x ∈ q, x = FP.fin 0)
    (hv : ∀ x ∈ v, ∃ y : ℝ, x = FP.fin y) (hlen : q.length = v.length) :
    dotFP q v = some (.fin 0) := by
  induction q generalizing v with
  | nil =>
    cases v with
    | nil => rfl
    | cons b t => simp at hlen
  | cons a q ih =>
    cases v with
    | nil => simp at hlen
    | cons b t =>
      have ha : a = FP.fin 0 := hq a (List.mem_cons_self a q)
      obtain ⟨y, hb⟩ := hv b (List.mem_cons_self b t)
      subst ha hb
      rw [dotFP, ih t (fun x hx => hq x (List.mem_cons_of_mem _ hx))
        (fun x hx => hv x (List.mem_cons_of_mem _ hx)) (by simpa using hlen)]
      simp only [FP.mul, FP.add]
      norm_num

theorem dotFP_fin (v w : List FP) (hv : ∀ x ∈ v, ∃ y : ℝ, x = FP.fin y)
    (hw : ∀ x ∈ w, ∃ y : ℝ, x = FP.fin y) (hlen : v.length = w.length) :
    ∃ r : ℝ, dotFP v w = some (.fin r) := by
  induction v generalizing w with
  | nil =>
    cases w with
    | nil => exact ⟨0, rfl⟩
    | cons b t => simp at hlen
  | cons a v ih =>
    cases w with
    | nil => simp at hlen
    | cons b t =>
      obtain ⟨x, ha⟩ := hv a (List.mem_cons_self a v)
      obtain ⟨y, hb⟩ := hw b (List.mem_cons_self b t)
      obtain ⟨r, hr⟩ := ih t (fun z hz => hv z (List.mem_cons_of_mem _ hz))
        (fun z hz => hw z (List.mem_cons_of_mem _ hz)) (by simpa using hlen)
      subst ha hb
      rw [dotFP, hr]
      exact ⟨x * y + r, rfl⟩

/-- An all-zero query vector makes every (finite, length-matching)
candidate's score `0 / 0 * ‖v‖ = nan`. -/
theorem cosine_nan_of_zero_query (q v : List FP) (hq : ∀ x ∈ q, x = FP.fin 0)
    (hv : ∀ x ∈ v, ∃ y : ℝ, x = FP.fin y) (hlen : v.length = q.length) :
    cosine_similarity q v = some .nan := by
  have hqfin : ∀ x ∈ q, ∃ y : ℝ, x = FP.fin y := fun x hx => ⟨0, hq x hx⟩
  have h1 : dotFP q v = some (.fin 0) := dotFP_zero_left q v hq hv hlen.symm
  have h2 : dotFP q q = some (.fin 0) := dotFP_zero_left q q hq hqfin rfl
  obtain ⟨r, h3⟩ := dotFP_fin v v hv hv rfl
  rw [cosine_similarity, h1, h2, h3]
  simp only []
  have hsq : FP.sqrt (.fin 0) = .fin 0 := by
    rw [FP.sqrt, if_neg (by norm_num)]
    simp [Real.sqrt_zero]
  rw [hsq]
  have hdiv : FP.div (.fin 0) (.fin 0) = .nan := by
    rw [FP.div, if_pos rfl, if_pos rfl]
  rw [hdiv, FP.mul_nan]

theorem insertCmp_length {α : Type} (cmp : α → α → Option Ordering) (a : α) :
    ∀ (l l' : List α), insertCmp cmp a l = some l' → l'.length = l.length + 1 := by
  intro l
  induction l with
  | nil => intro l' h; simp [insertCmp] at h; subst h; rfl
  | cons b bs ih =>
    intro l' h
    rw [insertCmp] at h
    match hc : cmp a b with
    | none => rw [hc] at h; simp at h
    | some Ordering.lt => rw [hc] at h; simp at h; subst h; rfl
    | some Ordering.eq =>
      rw [hc] at h
      simp only [] at h
      match hrec : insertCmp cmp a bs with
      | none => rw [hrec] at h; simp at h
      | some l2 =>
        rw [hrec] at h; simp at h; subst h
        simp [ih l2 hrec]
    | some Ordering.gt =>
      rw [hc] at h
      simp only [] at h
      match hrec : insertCmp cmp a bs with
      | none => rw [hrec] at h; simp at h
      | some l2 =>
        rw [hrec] at h; simp at h; subst h
        simp [ih l2 hrec]

theorem sortByCmp_length {α : Type} (cmp : α → α → Option Ordering) :
    ∀ (l l' : List α), sortByCmp cmp l = some l' → l'.length = l.length := by
  intro l
  induction l with
  | nil => intro l' h; simp [sortByCmp] at h; subst h; rfl
  | cons a as ih =>
    intro l' h
    rw [sortByCmp] at h
    match hs : sortByCmp cmp as with
    | none => rw [hs] at h; simp at h
    | some l2 =>
      rw [hs] at h
      simp only [] at h
      have := insertCmp_length cmp a l2 l' h
      simp [this, ih l2 hs]

theorem insertCmp_mem {α : Type} (cmp : α → α → Option Ordering) (a : α) :
    ∀ (l l' : List α), insertCmp cmp a l = some l' → ∀ x ∈ l', x = a ∨ x ∈ l := by
  intro l
  induction l with
  | nil =>
    intro l' h x hx
    simp [insertCmp] at h; subst h
    simp at hx; exact Or.inl hx
  | cons b bs ih =>
    intro l' h x hx
    rw [insertCmp] at h
    match hc : cmp a b with
    | none => rw [hc] at h; simp at h
    | some Ordering.lt =>
      rw [hc] at h; simp at h; subst h
      rcases List.mem_cons.mp hx with rfl | hx
      · exact Or.inl rfl
      · exact Or.inr hx
    | some Ordering.eq =>
      rw [hc] at h; simp only [] at h
      match hrec : insertCmp cmp a bs with
      | none => rw [hrec] at h; simp at h
      | some l2 =>
        rw [hrec] at h; simp at h; subst h
        rcases List.mem_cons.mp hx with rfl | hx
        · exact Or.inr (List.mem_cons_self _ _)
        · rcases ih l2 hrec x hx with h1 | h1
          · exact Or.inl h1
          · exact Or.inr (List.mem_cons_of_mem _ h1)
    | some Ordering.gt =>
      rw [hc] at h; simp only [] at h
      match hrec : insertCmp cmp a bs with
      | none => rw [hrec] at h; simp at h
      | some l2 =>
        rw [hrec] at h; simp at h; subst h
        rcases List.mem_cons.mp hx with rfl | hx
        · exact Or.inr (List.mem_cons_self _ _)
        · rcases ih l2 hrec x hx with h1 | h1
          · exact Or.inl h1
          · exact Or.inr (List.mem_cons_of_mem _ h1)

theorem sortByCmp_mem {α : Type} (cmp : α → α → Option Ordering) :
    ∀ (l l' : List α), sortByCmp cmp l = some l' → ∀ x ∈ l', x ∈ l := by
  intro l
  induction l with
  | nil => intro l' h x hx; simp [sortByCmp] at h; subst h; simp at hx
  | cons a as ih =>
    intro l' h x hx
    rw [sortByCmp] at h
    match hs : sortByCmp cmp as with
    | none => rw [hs] at h; simp at h
    | some l2 =>
      rw [hs] at h; simp only [] at h
      rcases insertCmp_mem cmp a l2 l' h x hx with h1 | h1
      · subst h1; exact List.mem_cons_self _ _
      · exact List.mem_cons_of_mem _ (ih l2 hs x h1)

/-- A list of at least two elements on which the comparator always panics
makes the sort panic: the very first comparison it attempts already does. -/
theorem sortByCmp_none {α : Type} (cmp : α → α → Option Ordering) (l : List α)
    (hcmp : ∀ a ∈ l, ∀ b ∈ l, cmp a b = none) (h2 : 2 ≤ l.length) :
    sortByCmp cmp l = none := by
  match l, h2 with
  | a :: b :: t, _ =>
    rw [sortByCmp]
    match hs : sortByCmp cmp (b :: t) with
    | none => rfl
    | some l2 =>
      simp only []
      have hlen : l2.length = t.length + 1 := by simpa using sortByCmp_length cmp _ _ hs
      match l2, hlen with
      | c :: l3, _ =>
        have hc : c ∈ b :: t := sortByCmp_mem cmp _ _ hs c (List.mem_cons_self _ _)
        rw [insertCmp, hcmp a (List.mem_cons_self _ _) c (List.mem_cons_of_mem _ hc)]

theorem dotR_map_right (c : ℝ) (q v : List ℝ) :
    dotR q (v.map (fun x => c * x)) = c * dotR q v := by
  induction q generalizing v with
  | nil => cases v <;> simp [dotR]
  | cons x xs ih =>
    cases v with
    | nil => simp [dotR]
    | cons y ys =>
      simp only [List.map_cons]
      rw [dotR, dotR, ih]
      ring

theorem dotR_map_both (c : ℝ) (v : List ℝ) :
    dotR (v.map (fun x => c * x)) (v.map (fun x => c * x)) = c ^ 2 * dotR v v := by
  induction v with
  | nil => simp [dotR]
  | cons y ys ih =>
    simp only [List.map_cons]
    rw [dotR, dotR, ih]
    ring

/-- Ranking of the three stored rows with vectors `1`, `2`, `3` against
query `[1]` (scores `1`, `4`, `9`): descending order `c`, `b`, `a`. -/
theorem sortEval1 :
    get_similarity [rowA, rowB, rowC] [[FP.fin 1]]
      = .ok [("c", "hc"), ("b", "hb"), ("a", "ha")] := by
  have hbc : cmpRows [FP.fin 1] rowB rowC = some .lt := by
    rw [show cmpRows [FP.fin 1] rowB rowC
        = (match cosine_similarity [FP.fin 1] [FP.fin 2],
                 cosine_similarity [FP.fin 1] [FP.fin 3] with
           | some s1, some s2 => FP.pcmp s1 s2
           | _, _ => none) from rfl]
    rw [cos_one_2, cos_one_3]
    exact pcmp_fin_lt (by norm_num)
  have hab : cmpRows [FP.fin 1] rowA rowB = some .lt := by
    rw [show cmpRows [FP.fin 1] rowA rowB
        = (match cosine_similarity [FP.fin 1] [FP.fin 1],
                 cosine_similarity [FP.fin 1] [FP.fin 2] with
           | some s1, some s2 => FP.pcmp s1 s2
           | _, _ => none) from rfl]
    rw [cos_one_1, cos_one_2]
    exact pcmp_fin_lt (by norm_num)
  simp only [get_similarity, List.getElem?_cons_zero]
  simp only [sortByCmp, insertCmp, hbc, hab]
  simp [rowA, rowB, rowC]

/-- Same store with `rowA`'s vector scaled by `4` (scores `16`, `4`, `9`):
the scaled record moves from last to first. -/
theorem sortEval4 :
    get_similarity [rowA4, rowB, rowC] [[FP.fin 1]]
      = .ok [("a", "ha"), ("c", "hc"), ("b", "hb")] := by
  have hbc : cmpRows [FP.fin 1] rowB rowC = some .lt := by
    rw [show cmpRows [FP.fin 1] rowB rowC
        = (match cosine_similarity [FP.fin 1] [FP.fin 2],
                 cosine_similarity [FP.fin 1] [FP.fin 3] with
           | some s1, some s2 => FP.pcmp s1 s2
           | _, _ => none) from rfl]
    rw [cos_one_2, cos_one_3]
    exact pcmp_fin_lt (by norm_num)
  have hab : cmpRows [FP.fin 1] rowA4 rowB = some .gt := by
    rw [show cmpRows [FP.fin 1] rowA4 rowB
        = (match cosine_similarity [FP.fin 1] [FP.fin 4],
                 cosine_similarity [FP.fin 1] [FP.fin 2] with
           | some s1, some s2 => FP.pcmp s1 s2
           | _, _ => none) from rfl]
    rw [cos_one_4, cos_one_2]
    exact pcmp_fin_gt (by norm_num)
  have hac : cmpRows [FP.fin 1] rowA4 rowC = some .gt := by
    rw [show cmpRows [FP.fin 1] rowA4 rowC
        = (match cosine_similarity [FP.fin 1] [FP.fin 4],
                 cosine_similarity [FP.fin 1] [FP.fin 3] with
           | some s1, some s2 => FP.pcmp s1 s2
           | _, _ => none) from rfl]
    rw [cos_one_4, cos_one_3]
    exact pcmp_fin_gt (by norm_num)
  simp only [get_similarity, List.getElem?_cons_zero]
  simp only [sortByCmp, insertCmp, hbc, hab, hac]
  simp [rowA4, rowB, rowC]

/-- Same store with `rowA`'s vector scaled by `5` (scores `25`, `4`, `9`):
again the scaled record overtakes both others. -/
theorem sortEval5 :
    get_similarity [rowA5, rowB, rowC] [[FP.fin 1]]
      = .ok [("a", "ha"), ("c", "hc"), ("b", "hb")] := by
  have hbc : cmpRows [FP.fin 1] rowB rowC = some .lt := by
    rw [show cmpRows [FP.fin 1] rowB rowC
        = (match cosine_similarity [FP.fin 1] [FP.fin 2],
                 cosine_similarity [FP.fin 1] [FP.fin 3] with
           | some s1, some s2 => FP.pcmp s1 s2
           | _, _ => none) from rfl]
    rw [cos_one_2, cos_one_3]
    exact pcmp_fin_lt (by norm_num)
  have hab : cmpRows [FP.fin 1] rowA5 rowB = some .gt := by
    rw [show cmpRows [FP.fin 1] rowA5 rowB
        = (match cosine_similarity [FP.fin 1] [FP.fin 5],
                 cosine_similarity [FP.fin 1] [FP.fin 2] with
           | some s1, some s2 => FP.pcmp s1 s2
           | _, _ => none) from rfl]
    rw [cos_one_5, cos_one_2]
    exact pcmp_fin_gt (by norm_num)
  have hac : cmpRows [FP.fin 1] rowA5 rowC = some .gt := by
    rw [show cmpRows [FP.fin 1] rowA5 rowC
        = (match cosine_similarity [FP.fin 1] [FP.fin 5],
                 cosine_similarity [FP.fin 1] [FP.fin 3] with
           | some s1, some s2 => FP.pcmp s1 s2
           | _, _ => none) from rfl]
    rw [cos_one_5, cos_one_3]
    exact pcmp_fin_gt (by norm_num)
  simp only [get_similarity, List.getElem?_cons_zero]
  simp only [sortByCmp, insertCmp, hbc, hab, hac]
  simp [rowA5, rowB, rowC]

/-! ## Claim theorems -/

/-- Claim C1 (status: code_bug — evaluation of the code at the failing
input). With 5 documents and 4 batches, `batch_size = ceil(5/4) = 2`;
batches 1 and 2 each take 2 records, and at batch 3 (index ≠ 4, so it
takes `batch_size` again) the loop slices indices `[4, 6)` of the
5-record list and panics. The claim's "partitions `[0, N)` ... with no
out-of-range access" therefore fails on the code for `N = 5, B = 4`:
the run ends in a panic with only the first two batches flushed. -/
theorem c1_batch_loop_overrun :
    get_embeddings oracleZero (docs5.map recOf) 4 none
      = (some [("n0", "b0", 0), ("n1", "b1", 0), ("n2", "b2", 0), ("n3", "b3", 0)],
         .panic) := rfl

/-- Counterexample for claim C2: the 5-document input `docs5` (headers
`h0..h4`, bodies `b0..b4`) split into 2 batches, the provider echoing one
embedding per input. The run succeeds, and the output record at position 0
is `("n0", "b0", 0)`: its second field is the *body* `"b0"` of document 0,
not its header `"h0"` — so "the name and header of the document" is false
(name and position are right; the header column is never propagated). -/
theorem c2_header_is_body_cex :
    get_embeddings oracleZero (docs5.map recOf) 2 none
        = (some [("n0", "b0", 0), ("n1", "b1", 0), ("n2", "b2", 0),
                 ("n3", "b3", 0), ("n4", "b4", 0)], .ok)
      ∧ ("b0" : String) ≠ "h0" :=
  ⟨rfl, by decide⟩

/-- Claim C2 (status: corrected — the record carries the name and *body*,
not the header). For every generation run that returns `.ok` on a
nonempty document list, in which each provider response contains one
embedding (`embF` of the input) per input in request order, the store row
at output position `i` is `(name, body, embedding)` of the document at
the same *global* input position `i` (batch offset plus batch-local
index): positional correlation is global as claimed, but the second
stored field holds input column 2 (the body), because `get_filename_body`
extracts columns 0 and 2. -/
theorem c2_positional_correlation {V E : Type}
    (oracle : ℕ → List String → Except E (List V)) (embF : String → V)
    (docs : List (String × String × String)) (B : ℕ)
    (store0 store' : Option (List (String × String × V)))
    (hne : docs ≠ [])
    (horacle : ∀ j inp, oracle j inp = .ok (inp.map embF))
    (hrun : get_embeddings oracle (docs.map recOf) B store0 = (store', .ok)) :
    store' = some (docs.map (expRow embF)) := by
  simp only [get_embeddings, content_map_recOf, fb_map_recOf] at hrun
  have h := batchLoop_ok oracle embF docs B (batch_size (docs.map bodyOf).length B) horacle
    ((docs.map bodyOf).length + 1) 0 1 none store' hrun
  rw [if_pos (by cases docs with | nil => exact absurd rfl hne | cons d t => simp)] at h
  simpa using h

/-- Witness for C2: the theorem applied to `docs5`, 2 batches and the
zero-embedding provider. -/
theorem c2_positional_correlation_witness :
    (some [("n0", "b0", (0:ℕ)), ("n1", "b1", 0), ("n2", "b2", 0),
           ("n3", "b3", 0), ("n4", "b4", 0)]
        : Option (List (String × String × ℕ)))
      = some (docs5.map (expRow fun _ => (0:ℕ))) :=
  (c2_positional_correlation oracleZero (fun _ => 0) docs5 2 none _
    (by decide) (fun _ _ => rfl) rfl).symm

/-- Claim C3 (status: confirmed). For every pair of non-empty equal-length
finite vectors with a nonzero query norm, `cosine_similarity` computes
exactly `dot(q,v) / ‖q‖ * ‖v‖` — the division binds only to the query's
norm and the candidate's norm multiplies the result — and (second
conjunct) this differs from the standard cosine
`dot/(‖q‖·‖v‖)` already at `q = [1]`, `v = [2]` (`4` versus `1`). -/
theorem c3_cosine_formula :
    (∀ (q v : List ℝ), q ≠ [] → q.length = v.length → dotR q q ≠ 0 →
      cosine_similarity (q.map FP.fin) (v.map FP.fin)
        = some (.fin (dotR q v / Real.sqrt (dotR q q) * Real.sqrt (dotR v v))))
    ∧ cosine_similarity [FP.fin 1] [FP.fin 2]
        ≠ some (.fin (dotR [1] [2] / (Real.sqrt (dotR [1] [1]) * Real.sqrt (dotR [2] [2])))) := by
  constructor
  · intro q v _ hlen hne
    exact cos_formula q v hlen hne
  · rw [cos_one_2]
    have h1 : dotR [(1:ℝ)] [2] = 2 := by norm_num [dotR]
    have h2 : dotR [(1:ℝ)] [1] = 1 := by norm_num [dotR]
    have h3 : dotR [(2:ℝ)] [2] = 4 := by norm_num [dotR]
    rw [h1, h2, h3, Real.sqrt_one, sqrt_four]
    simp only [ne_eq, Option.some.injEq, FP.fin.injEq]
    norm_num

/-- Witness for C3: the formula instantiated at `q = [1]`, `v = [3]`. -/
theorem c3_cosine_formula_witness :
    (([(1:ℝ)] : List ℝ) ≠ [] ∧ dotR [(1:ℝ)] [1] ≠ 0)
    ∧ cosine_similarity ([(1:ℝ)].map FP.fin) ([(3:ℝ)].map FP.fin)
        = some (.fin (dotR [1] [3] / Real.sqrt (dotR [1] [1]) * Real.sqrt (dotR [3] [3]))) :=
  ⟨⟨by simp, by norm_num [dotR]⟩,
   c3_cosine_formula.1 [1] [3] (by simp) rfl (by norm_num [dotR])⟩

/-- Counterexample for claim C4: a store of 3 records (vectors `[1]`,
`[2]`, `[3]`, query embedding `[1]`). Originally `get_similarity` ranks
them `c, b, a`; after scaling `a`'s vector by the positive constant `4`
it ranks `a, c, b` — the scaled record's position relative to both other
records changed, so the ranking is not invariant under positive scaling
of a stored vector. -/
theorem c4_rank_not_invariant_cex :
    get_similarity [rowA, rowB, rowC] [[FP.fin 1]]
        = .ok [("c", "hc"), ("b", "hb"), ("a", "ha")]
    ∧ get_similarity [rowA4, rowB, rowC] [[FP.fin 1]]
        = .ok [("a", "ha"), ("c", "hc"), ("b", "hb")] :=
  ⟨sortEval1, sortEval4⟩

/-- Claim C4 (status: corrected — the ranking is *not* invariant). The
similarity expression scales *quadratically* in a positive scaling of the
stored vector (`score(q, c·v) = c² · score(q, v)` for `c ≥ 0`), so a
scaled record's rank can change: with the 3-record store of the
counterexample, scaling the lowest-ranked vector by `5` moves it from
last place to first. -/
theorem c4_scaling_changes_rank :
    (∀ (q v : List ℝ) (c : ℝ), 0 ≤ c →
      cosine_similarityR q (v.map (fun x => c * x)) = c ^ 2 * cosine_similarityR q v)
    ∧ get_similarity [rowA, rowB, rowC] [[FP.fin 1]]
        = .ok [("c", "hc"), ("b", "hb"), ("a", "ha")]
    ∧ get_similarity [rowA5, rowB, rowC] [[FP.fin 1]]
        = .ok [("a", "ha"), ("c", "hc"), ("b", "hb")] := by
  refine ⟨?_, sortEval1, sortEval5⟩
  intro q v c hc
  rw [cosine_similarityR, cosine_similarityR, dotR_map_right, dotR_map_both]
  rw [Real.sqrt_mul (sq_nonneg c), Real.sqrt_sq hc]
  ring

/-- Witness for C4: the scaling law applied at `q = [1]`, `v = [3]`,
`c = 2`. -/
theorem c4_scaling_changes_rank_witness :
    cosine_similarityR [(1:ℝ)] ([(3:ℝ)].map (fun x => 2 * x))
      = 2 ^ 2 * cosine_similarityR [(1:ℝ)] [(3:ℝ)] :=
  c4_scaling_changes_rank.1 [1] [3] 2 (by norm_num)

/-- Counterexample for claim C5: the zero-magnitude query embedding `[0]`
against a store of two rows with vectors `[1]`, `[1]` gives both rows the
score `0/0·‖v‖ = NaN`; the first comparison the sort performs is
`partial_cmp` of two NaNs, whose `.unwrap()` panics — `get_similarity`
ends in a panic, not a defined error and not a lowest-rank placement. -/
theorem c5_nan_panic_cex :
    get_similarity [("a", "ha", [FP.fin 1]), ("b", "hb", [FP.fin 1])] [[FP.fin 0]]
      = .panic := by
  have hc : cosine_similarity [FP.fin 0] [FP.fin 1] = some .nan :=
    cosine_nan_of_zero_query _ _ (by intro x hx; simpa using hx)
      (by intro x hx; exact ⟨1, by simpa using hx⟩) rfl
  have hcmp : cmpRows [FP.fin 0] ("a", "ha", [FP.fin 1]) ("b", "hb", [FP.fin 1]) = none := by
    rw [show cmpRows [FP.fin 0] ("a", "ha", [FP.fin 1]) ("b", "hb", [FP.fin 1])
        = (match cosine_similarity [FP.fin 0] [FP.fin 1],
                 cosine_similarity [FP.fin 0] [FP.fin 1] with
           | some s1, some s2 => FP.pcmp s1 s2
           | _, _ => none) from rfl]
    rw [hc]
    simp only []
    exact FP.pcmp_nan _
  simp only [get_similarity, List.getElem?_cons_zero]
  simp only [sortByCmp, insertCmp, hcmp]

/-- Claim C5 (status: corrected — the comparator *does* panic). For every
all-zero query embedding and every store of at least two rows with
finite, length-matching vectors, every similarity score is NaN,
`partial_cmp` returns `None`, and the `.unwrap()` inside the sort
comparator panics: `get_similarity` ends in a panic instead of a defined
error or a lowest-rank placement. -/
theorem c5_nan_comparator_panics (q : List FP) (rows : List SRow)
    (hq : ∀ x ∈ q, x = FP.fin 0)
    (hfin : ∀ r ∈ rows, ∀ x ∈ r.2.2, ∃ y : ℝ, x = FP.fin y)
    (hlen : ∀ r ∈ rows, r.2.2.length = q.length)
    (h2 : 2 ≤ rows.length) :
    get_similarity rows [q] = .panic := by
  have hcmp : ∀ a ∈ rows, ∀ b ∈ rows, cmpRows q a b = none := by
    intro a ha b hb
    rw [cmpRows, cosine_nan_of_zero_query q a.2.2 hq (hfin a ha) (hlen a ha),
        cosine_nan_of_zero_query q b.2.2 hq (hfin b hb) (hlen b hb)]
    simp only []
    exact FP.pcmp_nan _
  simp only [get_similarity, List.getElem?_cons_zero]
  rw [sortByCmp_none (cmpRows q) rows hcmp h2]

/-- Witness for C5: the theorem applied to the query `[0]` and two rows
with vectors `[2]` and `[3]`. -/
theorem c5_nan_comparator_panics_witness :
    get_similarity [("x", "hx", [FP.fin 2]), ("y", "hy", [FP.fin 3])] [[FP.fin 0]]
      = .panic := by
  refine c5_nan_comparator_panics [FP.fin 0]
    [("x", "hx", [FP.fin 2]), ("y", "hy", [FP.fin 3])]
    (by intro x hx; simpa using hx) ?_ ?_ (by norm_num)
  · intro r hr x hx
    rcases List.mem_cons.mp hr with rfl | hr
    · exact ⟨2, by simpa using hx⟩
    · rcases List.mem_cons.mp hr with rfl | hr
      · exact ⟨3, by simpa using hx⟩
      · cases hr
  · intro r hr
    rcases List.mem_cons.mp hr with rfl | hr
    · rfl
    · rcases List.mem_cons.mp hr with rfl | hr
      · rfl
      · cases hr

/-- Counterexample for claim C6: the stored row `["a", "h", "1,abc"]`
whose vector field contains the token `"abc"` (which does not parse as a
float). Loading it makes `get_embedding_rows` panic (`unwrap` on the
failed `parse::<f32>`): the failure is a panic, not a surfaced defined
error, though the token is indeed never coerced to zero. -/
theorem c6_bad_token_panics_cex :
    get_embedding_rows [["a", "h", "1,abc"]] = .panic ∧ parseQ "abc" = none := by
  decide

/-- Claim C6 (status: corrected — the failure is a panic, not a defined
error). For every store whose records include a row with a vector field
(column 2) containing a token that does not parse as a float, the whole
`get_embedding_rows` load panics: the malformed token is never silently
coerced to zero, but nothing is surfaced as an error value either — the
`unwrap` on `parse::<f32>` aborts by panicking. -/
theorem c6_bad_token_always_panics (records : List (List String)) (r : List String)
    (f t : String) (hr : r ∈ records) (hf : r[2]? = some f) (ht : t ∈ splitComma f)
    (hp : parseQ t = none) :
    get_embedding_rows records = .panic := by
  have hlen : 2 < r.length := by
    rcases List.getElem?_eq_some.mp hf with ⟨h, _⟩
    exact h
  obtain ⟨a0, h0⟩ : ∃ a, r[0]? = some a := by
    rw [List.getElem?_eq_getElem (show 0 < r.length by omega)]; exact ⟨_, rfl⟩
  obtain ⟨a1, h1⟩ : ∃ a, r[1]? = some a := by
    rw [List.getElem?_eq_getElem (show 1 < r.length by omega)]; exact ⟨_, rfl⟩
  have hrow : loadRow r = none := by
    rw [loadRow, h0, h1, hf]
    simp only []
    rw [optMap_none parseQ ht hp]
  rw [get_embedding_rows, optMap_none loadRow hr hrow]

/-- Witness for C6: the theorem applied to the single-row store
`["n", "h", "2.5,xyz"]` with malformed token `"xyz"`. -/
theorem c6_bad_token_always_panics_witness :
    get_embedding_rows [["n", "h", "2.5,xyz"]] = .panic :=
  c6_bad_token_always_panics [["n", "h", "2.5,xyz"]] ["n", "h", "2.5,xyz"]
    "2.5,xyz" "xyz" (by decide) (by decide) (by decide) (by decide)

/-- Claim C7 (status: confirmed). For every provider response: on a
non-success HTTP status whose body deserializes as the provider's
structured error payload, `post_embedding_request` returns the typed API
error carrying the provider's own error detail (`apiError e`, never a
deserialize failure and with no generic-HTTP kind in this
classification); and whenever the required payload shape fails to
deserialize — the error payload on a non-success status, or the response
payload on a success status — the result is the distinct
`jsonDeserialize` kind, not the API-error kind. -/
theorem c7_error_classification {Body ApiErr Resp : Type}
    (dErr : Body → Option ApiErr) (dResp : Body → Option Resp)
    (status : ℕ) (body : Body) :
    (status_is_success status = false → ∀ e, dErr body = some e →
      post_embedding_request dErr dResp status body = .error (.apiError e))
    ∧ (status_is_success status = false → dErr body = none →
      post_embedding_request dErr dResp status body = .error .jsonDeserialize)
    ∧ (status_is_success status = true → dResp body = none →
      post_embedding_request dErr dResp status body = .error .jsonDeserialize) := by
  refine ⟨?_, ?_, ?_⟩
  · intro hs e he
    rw [post_embedding_request, if_pos (by rw [hs]), he]
  · intro hs he
    rw [post_embedding_request, if_pos (by rw [hs]), he]
  · intro hs he
    rw [post_embedding_request, if_neg (by simp [hs]), he]

/-- Witness for C7: an HTTP 429 whose body deserializes as the provider
error payload is surfaced as `apiError "rate limited"`. -/
theorem c7_error_classification_witness :
    (status_is_success 429 = false ∧ dErrToy "429_body" = some "rate limited")
    ∧ post_embedding_request dErrToy dRespToy 429 "429_body"
        = .error (.apiError "rate limited") :=
  ⟨⟨by decide, by decide⟩,
   (c7_error_classification dErrToy dRespToy 429 "429_body").1 (by decide) _ (by decide)⟩

/-- Claim C8 (status: confirmed; the store semantics of the missing
`file_processor` are modelled from the spec). Every run deletes the
pre-existing store before the first batch write — `store0` is arbitrary
and absent from the result — and each batch is flushed immediately after
its provider round-trip succeeds: a run whose provider call fails at
batch `k` of `B` (after `k-1` successful batches, with one embedding per
input in request order) ends with exactly the rows of batches `1..k-1`,
i.e. the first `(k-1)·batch_size` documents' rows, persisted (for
`k = 1` nothing was written and the store is still absent). The
arithmetic hypotheses say the loop indeed reaches batch `k` and batch
`k`'s slice is in range. -/
theorem c8_partial_flush {V E : Type}
    (oracle : ℕ → List String → Except E (List V)) (embF : String → V)
    (docs : List (String × String × String)) (B k : ℕ) (e : E)
    (store0 : Option (List (String × String × V)))
    (hk1 : 1 ≤ k) (hkB : k ≤ B)
    (hreach : (k - 1) * batch_size docs.length B < docs.length)
    (hrange : k = B ∨ k * batch_size docs.length B ≤ docs.length)
    (hok : ∀ j, 1 ≤ j → j < k →
      oracle j (batchInput docs B j) = .ok ((batchInput docs B j).map embF))
    (herr : oracle k (batchInput docs B k) = .error e) :
    get_embeddings oracle (docs.map recOf) B store0
      = ((if k = 1 then none
          else some ((docs.map (expRow embF)).take ((k - 1) * batch_size docs.length B))),
         .apiError e) := by
  simp only [get_embeddings, content_map_recOf, fb_map_recOf, List.length_map]
  have h := batchLoop_reach oracle embF docs B k e hkB hreach hrange hok herr
    (k - 1) 1 (by omega) le_rfl ((docs.map bodyOf).length + 1)
    (by
      simp only [List.length_map]
      have h1 := Nat.le_mul_of_pos_right (k - 1)
        (show 0 < batch_size docs.length B by
          rw [batch_size, if_neg (show ¬ B = 0 by omega)]
          rw [Nat.lt_iff_add_one_le, Nat.one_le_div_iff (by omega)]
          omega)
      omega)
  norm_num at h
  exact h

/-- Witness for C8: 5 documents, 5 batches (`batch_size = 1`), provider
failing on batch 2 with error 7: only batch 1's single row is persisted,
regardless of the pre-existing store. -/
theorem c8_partial_flush_witness :
    get_embeddings oracleFail2 (docs5.map recOf) 5 (some [("x", "y", 99)])
      = (some [("n0", "b0", 2)], .apiError 7) := by
  have h := c8_partial_flush oracleFail2 String.length docs5 5 2 7 (some [("x", "y", 99)])
    (by norm_num) (by norm_num) (by decide) (Or.inr (by decide))
    (fun j h1 h2 => by
      have hj : j = 1 := by omega
      subst hj
      rfl)
    rfl
  simpa [docs5, expRow, batch_size] using h

/-- Counterexample for claim C9: with zero documents and a pre-existing
store, the run deletes the store, runs zero batches and never writes:
the final store is `none` (absent), which is not the present-and-empty
store `some []` the claim requires. -/
theorem c9_store_absent_cex :
    get_embeddings oracleZero ([] : List (List String)) 3 (some [("x", "y", 0)])
        = (none, .ok)
      ∧ (none : Option (List (String × String × ℕ))) ≠ some [] :=
  ⟨rfl, by decide⟩

/-- Claim C9 (status: corrected — the store ends *absent*, not present
and empty; store semantics of the missing `file_processor` modelled from
the spec). When the input contains zero documents, `get_embeddings` runs
zero batches and returns successfully, but since the pre-existing store
was deleted and no batch ever wrote, the store is left absent — there is
no empty-file creation step. -/
theorem c9_zero_docs_store_absent {V E : Type}
    (oracle : ℕ → List String → Except E (List V)) (B : ℕ)
    (store0 : Option (List (String × String × V))) :
    get_embeddings oracle ([] : List (List String)) B store0 = (none, .ok) := rfl

/-- Witness for C9: the theorem applied to the zero-embedding oracle,
7 batches and a nonempty pre-existing store. -/
theorem c9_zero_docs_store_absent_witness :
    get_embeddings oracleZero ([] : List (List String)) 7 (some [("a", "b", 1)])
      = (none, .ok) :=
  c9_zero_docs_store_absent oracleZero 7 (some [("a", "b", 1)])

/-- Claim C10 (status: confirmed). `get_similarity` indexes
`response.data[0]` unconditionally; whenever the provider response
succeeds with an empty `data` sequence, the operation panics
(out-of-bounds index) for every store contents, instead of returning a
defined error. -/
theorem c10_empty_data_panics (rows : List SRow) :
    get_similarity rows [] = .panic := rfl

/-- Witness for C10: the theorem applied to a two-row store. -/
theorem c10_empty_data_panics_witness :
    get_similarity [rowA, rowB] [] = .panic :=
  c10_empty_data_panics [rowA, rowB]
